import Mathlib

/-!
Verification of `tools/ai_autobuilder.py` (the AI build-fix loop).

Strings from the Python program are embedded as `List Char`.  Each Lean
definition carries a comment pointing at the Python function it embeds;
external effects (subprocess exit codes, HTTP statuses, raised exceptions)
are passed in as explicit parameters or oracle functions.
-/

/-- Python whitespace characters recognised by `str.strip()`. -/
def isPySpace (c : Char) : Bool :=
  c = ' ' || c = '\t' || c = '\n' || c = '\r' || c = '\x0b' || c = '\x0c'

/-- Right-trim: drop trailing Python whitespace. -/
def rtrimPy (cs : List Char) : List Char :=
  ((cs.reverse).dropWhile isPySpace).reverse

/-- Python `str.strip()`: drop leading and trailing whitespace. -/
def pyStrip (cs : List Char) : List Char :=
  rtrimPy (cs.dropWhile isPySpace)

/-- Split a string at its first newline: `breakNL cs = some (l, r)` when
`cs = l ++ '\n' :: r` with `l` newline-free; `none` when `cs` has no newline. -/
def breakNL : List Char → Option (List Char × List Char)
  | [] => none
  | c :: cs =>
    if c = '\n' then some ([], cs)
    else match breakNL cs with
      | some (l, r) => some (c :: l, r)
      | none => none

/-- Is `needle` a prefix of `hay`? -/
def listPrefixOf : List Char → List Char → Bool
  | [], _ => true
  | _ :: _, [] => false
  | a :: as, b :: bs => a == b && listPrefixOf as bs

/-- Python `needle in hay` on strings: does `needle` occur in `hay`? -/
def listContains (needle : List Char) : List Char → Bool
  | [] => listPrefixOf needle []
  | c :: rest => listPrefixOf needle (c :: rest) || listContains needle rest

/-- Match the regex fragment `MARK[^\n]+\n` at the head of `cs` (for the
4-character marks `"--- "` and `"+++ "`): `cs` must start with `mark`,
followed by a nonempty newline-free token and a `'\n'`; returns the text
after that newline. -/
def markTokenNL (mark : List Char) (cs : List Char) : Option (List Char) :=
  if listPrefixOf mark cs then
    (breakNL (cs.drop mark.length)).bind (fun p => if p.1.isEmpty then none else some p.2)
  else none

/-- Does the text starting here match the regex
`--- [^\n]+\n\+\+\+ [^\n]+\n` from `extract_unified_diff`?
(Both header lines must be newline-terminated, with a nonempty token
after `--- ` resp. `+++ `.) -/
def headerAt (cs : List Char) : Bool :=
  ((markTokenNL (("--- ").toList) cs).bind (markTokenNL (("+++ ").toList))).isSome

/-- `re.search` with the multiline anchor `^`: return the index of the first
position that starts a line (position 0 when `atStart`, or right after a
newline) and matches `headerAt`. -/
def findHeader (atStart : Bool) : List Char → Option Nat
  | [] => if atStart && headerAt [] then some 0 else none
  | c :: rest =>
    if atStart && headerAt (c :: rest) then some 0
    else (findHeader (c == '\n') rest).map (· + 1)

/-- `extract_unified_diff(text)`: find the first multiline-anchored match of
`^--- [^\n]+\n\+\+\+ [^\n]+\n`; on a match at index `start` return
`text[start:].strip()`, otherwise `None`. -/
def extract_unified_diff (text : List Char) : Option (List Char) :=
  (findHeader true text).map (fun i => pyStrip (text.drop i))

/-- Python `str.splitlines()` restricted to `'\n'` separators (the only
separator occurring in captured subprocess text here). -/
def splitlinesNL : List Char → List (List Char)
  | [] => []
  | c :: cs =>
    if c = '\n' then [] :: splitlinesNL cs
    else match splitlinesNL cs with
      | [] => [[c]]
      | l :: ls => (c :: l) :: ls

/-- `"\n".join(lines)`. -/
def joinNL : List (List Char) → List Char
  | [] => []
  | [l] => l
  | l :: ls => l ++ '\n' :: joinNL ls

/-- `get_repo_tree()`: `run("git ls-files || true", capture=True)` captures the
command's merged stdout+stderr (the Process Runner passes
`stderr=subprocess.STDOUT`); the function returns
`"\n".join(out.stdout.strip().splitlines()[:220])`.
The captured merged text is the parameter `lsOut`. -/
def get_repo_tree (lsOut : List Char) : List Char :=
  joinNL ((splitlinesNL (pyStrip lsOut)).take 220)

/-! ## Declarative characterisation of the diff-header regex

`HeaderShape cs` states, by explicit decomposition, that `cs` begins with a
newline-terminated `--- <token>` line immediately followed by a
newline-terminated `+++ <token>` line (tokens nonempty and newline-free) —
the declarative content of the regex `^--- [^\n]+\n\+\+\+ [^\n]+\n`. -/
def HeaderShape (cs : List Char) : Prop :=
  ∃ t1 t2 rest, t1 ≠ [] ∧ t2 ≠ [] ∧ '\n' ∉ t1 ∧ '\n' ∉ t2 ∧
    cs = ("--- ").toList ++ (t1 ++ '\n' :: (("+++ ").toList ++ (t2 ++ '\n' :: rest)))

/-- Position `i` is a line start of `cs` for the multiline anchor `^`:
either the very start of the search text (when `atStart` is true), or the
position right after a newline. -/
def LineStartAt (atStart : Bool) (cs : List Char) : Nat → Prop
  | 0 => atStart = true
  | j + 1 => cs.get? j = some '\n'

/-- The multiline-anchored regex of `extract_unified_diff` matches `cs` at
position `i`. -/
def MatchAt (atStart : Bool) (cs : List Char) (i : Nat) : Prop :=
  LineStartAt atStart cs i ∧ HeaderShape (cs.drop i)

/-! ## The spec claim's line-based reading of the header pair (for comparison)

The spec describes the extractor as finding "the first line matching
`--- <token>` immediately followed by a line matching `+++ <token>`".  Read
over the line decomposition of the text, a final line that is not
newline-terminated still counts as a line.  These definitions follow those
spec words, to be compared with the source regex embedded above. -/

/-- A line of the form `--- <token>` with a nonempty token. -/
def specLineMinus (l : List Char) : Bool :=
  match l with
  | '-' :: '-' :: '-' :: ' ' :: t => !t.isEmpty
  | _ => false

/-- A line of the form `+++ <token>` with a nonempty token. -/
def specLinePlus (l : List Char) : Bool :=
  match l with
  | '+' :: '+' :: '+' :: ' ' :: t => !t.isEmpty
  | _ => false

/-- Does the line list contain a `--- <token>` line immediately followed by a
`+++ <token>` line? -/
def specHeaderPairInLines : List (List Char) → Bool
  | l1 :: l2 :: rest => (specLineMinus l1 && specLinePlus l2) || specHeaderPairInLines (l2 :: rest)
  | _ => false

/-! ## Patch applier (`apply_patch`)

The Python body writes `diff_text` to a temp file, then inside
`try: ... except Exception: return False  finally: os.unlink(tmp.name)`
runs five statements in order:
  step 0  `git("add", "-A")`
  step 1  `run("git diff --staged > .pre_ai_fix.patch || true")`   (snapshot)
  step 2  `run(f"git apply --reject --whitespace=fix TMP", capture=True)`
  step 3  `git("add", "-A")`
  step 4  `run('git commit -m ... || true')`
Every subprocess call uses `check=False`, so a nonzero exit code of any of
these commands (in particular of `git apply`) raises nothing; only a Python
exception (OS-level) aborts the sequence.  `raises i = true` models such an
exception while executing statement `i`; `gitApplyExit` is the exit code of
the `git apply` subprocess, recorded in the trace and ignored by the control
flow exactly as the source ignores the returned `CompletedProcess`. -/

/-- One externally visible operation of `apply_patch`, in execution order. -/
inductive PatchOp where
  | writeTmp (diff_text : List Char)
  | gitAddPre
  | writeSnapshot
  | gitApply (exitCode : Int)
  | gitAddPost
  | gitCommit
  | unlinkTmp
deriving DecidableEq

/-- The `try:` block of `apply_patch`: run the five statements in order,
stopping at the first one that raises; result `true` iff none raised. -/
def trySteps (raises : Nat → Bool) (gitApplyExit : Int) : Bool × List PatchOp :=
  if raises 0 then (false, []) else
  if raises 1 then (false, [.gitAddPre]) else
  if raises 2 then (false, [.gitAddPre, .writeSnapshot]) else
  if raises 3 then (false, [.gitAddPre, .writeSnapshot, .gitApply gitApplyExit]) else
  if raises 4 then (false, [.gitAddPre, .writeSnapshot, .gitApply gitApplyExit, .gitAddPost]) else
  (true, [.gitAddPre, .writeSnapshot, .gitApply gitApplyExit, .gitAddPost, .gitCommit])

/-- `apply_patch(diff_text)`: returns the boolean result together with the
ordered trace of operations (temp-file write first, `finally` unlink last). -/
def apply_patch (diff_text : List Char) (gitApplyExit : Int) (raises : Nat → Bool) :
    Bool × List PatchOp :=
  let r := trySteps raises gitApplyExit
  (r.1, .writeTmp diff_text :: r.2 ++ [.unlinkTmp])

/-! ## Model client (`call_llm`, `_call_openai`, `_call_llama`) -/

/-- Python exceptions distinguished by `call_llm`'s handler:
`except RuntimeError as e` catches only `runtimeError`; `keyError` models the
`KeyError` from `os.environ["OPENAI_API_KEY"]` on a missing credential. -/
inductive PyExc where
  | keyError
  | runtimeError (msg : List Char)
deriving DecidableEq

/-- Environment of one `_call_openai` invocation: whether `OPENAI_API_KEY`
is set, the HTTP status, the error body text, and the completion content. -/
structure OpenAIEnv where
  keyPresent : Bool
  status : Nat
  errBody : List Char
  content : List Char

/-- Environment of one `_call_llama` invocation: the subprocess exit code and
its captured stdout. -/
structure LlamaEnv where
  returncode : Int
  stdout : List Char

/-- `_call_openai(prompt)`: `os.environ["OPENAI_API_KEY"]` raises `KeyError`
when unset; a response with `status_code >= 400` raises
`RuntimeError(f"openai_error:...")`; otherwise the message content is
returned. -/
def _call_openai (env : OpenAIEnv) : Except PyExc (List Char) :=
  if env.keyPresent = false then .error .keyError
  else if 400 ≤ env.status then
    .error (.runtimeError (("openai_error:").toList ++ env.errBody))
  else .ok env.content

/-- `_call_llama(prompt)`: nonzero subprocess exit raises
`RuntimeError("llama_failed")`; otherwise stdout is returned. -/
def _call_llama (env : LlamaEnv) : Except PyExc (List Char) :=
  if env.returncode ≠ 0 then .error (.runtimeError ("llama_failed").toList)
  else .ok env.stdout

/-- One backend invocation, with the prompt text it received. -/
inductive BackendCall where
  | openai (prompt : List Char)
  | llama (prompt : List Char)
deriving DecidableEq

/-- `call_llm(prompt)`: dispatch on `PROVIDER`; for `"openai"`, catch a
`RuntimeError` whose message contains `"openai_error"` and, when
`FALLBACK_PROVIDER == "llama"`, invoke `_call_llama` with the same prompt
(returning its output or propagating its failure); any other exception is
propagated with no fallback.  Returns the result together with the ordered
trace of backend invocations. -/
def call_llm (provider fallbackProvider : List Char) (oenv : OpenAIEnv) (lenv : LlamaEnv)
    (prompt : List Char) : Except PyExc (List Char) × List BackendCall :=
  if provider = ("openai").toList then
    match _call_openai oenv with
    | .ok t => (.ok t, [.openai prompt])
    | .error (.runtimeError msg) =>
      if listContains ("openai_error").toList msg ∧ fallbackProvider = ("llama").toList then
        (_call_llama lenv, [.openai prompt, .llama prompt])
      else (.error (.runtimeError msg), [.openai prompt])
    | .error e => (.error e, [.openai prompt])
  else if provider = ("llama").toList then
    (_call_llama lenv, [.llama prompt])
  else
    (.error (.runtimeError (("Unknown PROVIDER=").toList ++ provider)), [])

/-! ## Fix loop controller (`main`) -/

/-- `MAX_ATTEMPTS = int(os.getenv("AI_BUILDER_ATTEMPTS", "3"))`: the parsed
environment value when set, else 3. -/
def MAX_ATTEMPTS (envVal : Option Nat) : Nat :=
  match envVal with
  | some n => n
  | none => 3

/-- Outcome of one run of `main()`: the process exit code, the number of
model queries made, and the number of build invocations. -/
structure RunResult where
  exitCode : Nat
  queries : Nat
  builds : Nat
deriving DecidableEq

/-- The `while attempts < MAX_ATTEMPTS` loop of `main()`.  Oracles: `llm q`
is the model response to query number `q` (0-based); `applyEnv q` gives the
`git apply` exit code and exception behaviour of the patch application in
that iteration; `build b` is the exit code of build invocation number `b`.
`rem` is the number of remaining attempts, `q`/`b` count queries and builds
made so far.  One iteration: query the model, extract a diff (`if not diff:
break` — falsy catches both `None` and the empty string), apply the patch
(`if not apply_patch(diff): break`), rebuild (`if code == 0: return 0`). -/
def fix_loop (llm : Nat → List Char) (applyEnv : Nat → Int × (Nat → Bool))
    (build : Nat → Int) : Nat → Nat → Nat → RunResult
  | 0, q, b => ⟨1, q, b⟩
  | rem + 1, q, b =>
    match extract_unified_diff (llm q) with
    | none => ⟨1, q + 1, b⟩
    | some d =>
      if d = [] then ⟨1, q + 1, b⟩
      else if (apply_patch d (applyEnv q).1 (applyEnv q).2).1 = false then ⟨1, q + 1, b⟩
      else if build b = 0 then ⟨0, q + 1, b + 1⟩
      else fix_loop llm applyEnv build rem (q + 1) (b + 1)

/-- `main()`: run the initial build (build number 0); on exit code 0 return 0
with no model queries; otherwise enter the fix loop with `maxAttempts`
remaining attempts.  The loop falls through to `return 1`.
(Named `main_run` because Lean reserves the name `main`.) -/
def main_run (maxAttempts : Nat) (llm : Nat → List Char) (applyEnv : Nat → Int × (Nat → Bool))
    (build : Nat → Int) : RunResult :=
  if build 0 = 0 then ⟨0, 0, 1⟩
  else fix_loop llm applyEnv build maxAttempts 0 1

/-! ## Theorems -/

/-- Claim C2: for every input, if the initial build command exits with code 0,
the controller makes zero model queries and the process exits with code 0. -/
theorem initial_build_success_no_queries (k : Nat) (llm : Nat → List Char)
    (applyEnv : Nat → Int × (Nat → Bool)) (build : Nat → Int) (h : build 0 = 0) :
    main_run k llm applyEnv build = ⟨0, 0, 1⟩ := by
  simp [main_run, h]

/-- Witness for claim C2 at a concrete environment. -/
theorem initial_build_success_no_queries_witness :
    main_run 3 (fun _ => []) (fun _ => (0, fun _ => false)) (fun _ => 0) = ⟨0, 0, 1⟩ :=
  initial_build_success_no_queries 3 (fun _ => []) (fun _ => (0, fun _ => false))
    (fun _ => 0) rfl

/-- Claim C1: if every build attempt fails and every model response is
malformed (no unified-diff header pair), then for every `MAX_ATTEMPTS`
`k ≥ 1` the fix loop makes exactly 1 model query, performs no further build
attempts, and the process exits with code 1. -/
theorem malformed_response_fail_fast (k : Nat) (llm : Nat → List Char)
    (applyEnv : Nat → Int × (Nat → Bool)) (build : Nat → Int)
    (hk : 1 ≤ k) (hbuild : ∀ b, build b ≠ 0)
    (hmal : ∀ q, extract_unified_diff (llm q) = none) :
    main_run k llm applyEnv build = ⟨1, 1, 1⟩ := by
  obtain ⟨rem, rfl⟩ : ∃ rem, k = rem + 1 := ⟨k - 1, by omega⟩
  simp [main_run, hbuild 0, fix_loop, hmal 0]

/-- Witness for claim C1 at a concrete environment (k = 3, build always
failing, model always answering prose with no diff header). -/
theorem malformed_response_fail_fast_witness :
    main_run 3 (fun _ => ("I cannot help with that.").toList)
      (fun _ => (0, fun _ => false)) (fun _ => 1) = ⟨1, 1, 1⟩ :=
  malformed_response_fail_fast 3 (fun _ => ("I cannot help with that.").toList)
    (fun _ => (0, fun _ => false)) (fun _ => 1) (by decide)
    (fun _ => show (1 : Int) ≠ 0 by decide)
    (fun _ => show extract_unified_diff (("I cannot help with that.").toList) = none by decide)

/-- The fix loop makes at most `rem` further model queries beyond the `q`
already made. -/
theorem fix_loop_queries_le (llm : Nat → List Char) (applyEnv : Nat → Int × (Nat → Bool))
    (build : Nat → Int) : ∀ rem q b, (fix_loop llm applyEnv build rem q b).queries ≤ q + rem := by
  intro rem
  induction rem with
  | zero => intro q b; simp [fix_loop]
  | succ n ih =>
    intro q b
    simp only [fix_loop]
    cases hex : extract_unified_diff (llm q) with
    | none => simp
    | some d =>
      by_cases hd : d = []
      · simp [hd]
      · by_cases ha : (apply_patch d (applyEnv q).1 (applyEnv q).2).1 = false
        · simp [hd, ha]
        · by_cases hb : build b = 0
          · simp [hd, ha, hb]
          · simpa [hd, ha, hb] using le_trans (ih (q + 1) (b + 1)) (by omega)

/-- Claim C8: in every run the total number of model queries is at most
`MAX_ATTEMPTS`, and `MAX_ATTEMPTS` defaults to 3 when the environment
variable is not set. -/
theorem queries_bounded_by_max_attempts (envVal : Option Nat) (llm : Nat → List Char)
    (applyEnv : Nat → Int × (Nat → Bool)) (build : Nat → Int) :
    (main_run (MAX_ATTEMPTS envVal) llm applyEnv build).queries ≤ MAX_ATTEMPTS envVal
    ∧ MAX_ATTEMPTS none = 3 := by
  constructor
  · by_cases h : build 0 = 0
    · simp [main_run, h]
    · simpa [main_run, h] using fix_loop_queries_le llm applyEnv build (MAX_ATTEMPTS envVal) 0 1
  · rfl

/-- Claim C3 counterexample: a diff that does not apply (`git apply` exits 1,
rejecting its hunks) raises no exception, so `apply_patch` returns `true` —
not `false` — and the controller does not abort: with every build failing and
every response carrying a diff that never applies, the run still makes 2
queries over 2 attempts instead of stopping after the first failed apply. -/
theorem apply_patch_reject_reports_success :
    (apply_patch (("--- a\n+++ b").toList) 1 (fun _ => false)).1 = true
    ∧ main_run 2 (fun _ => ("--- a\n+++ b\n").toList)
        (fun _ => (1, fun _ => false)) (fun _ => 1) = ⟨1, 2, 3⟩ := by
  constructor
  · decide
  · decide

/-- Claim C3 (amended): `apply_patch` reports failure exactly when a Python
exception is raised during one of its five statements (a nonzero `git apply`
exit alone raises nothing, since every subprocess call passes `check=False`);
and whenever `apply_patch` reports failure the controller aborts the entire
run, exiting 1 after that single query with no further build. -/
theorem apply_patch_false_aborts_run (d : List Char) (g : Int) (raises : Nat → Bool) :
    ((apply_patch d g raises).1 = false ↔ ∃ i, i < 5 ∧ raises i = true)
    ∧ ∀ (k : Nat) (llm : Nat → List Char) (build : Nat → Int),
        1 ≤ k → build 0 ≠ 0 → extract_unified_diff (llm 0) = some d → d ≠ [] →
        (apply_patch d g raises).1 = false →
        main_run k llm (fun _ => (g, raises)) build = ⟨1, 1, 1⟩ := by
  constructor
  · simp only [apply_patch, trySteps]
    by_cases h0 : raises 0 = true
    · simp only [h0, if_true]
      exact ⟨fun _ => ⟨0, by omega, h0⟩, fun _ => trivial⟩
    by_cases h1 : raises 1 = true
    · simp only [h0, h1, if_true, if_false, Bool.false_eq_true]
      exact ⟨fun _ => ⟨1, by omega, h1⟩, fun _ => trivial⟩
    by_cases h2 : raises 2 = true
    · simp only [h0, h1, h2, if_true, if_false, Bool.false_eq_true]
      exact ⟨fun _ => ⟨2, by omega, h2⟩, fun _ => trivial⟩
    by_cases h3 : raises 3 = true
    · simp only [h0, h1, h2, h3, if_true, if_false, Bool.false_eq_true]
      exact ⟨fun _ => ⟨3, by omega, h3⟩, fun _ => trivial⟩
    by_cases h4 : raises 4 = true
    · simp only [h0, h1, h2, h3, h4, if_true, if_false, Bool.false_eq_true]
      exact ⟨fun _ => ⟨4, by omega, h4⟩, fun _ => trivial⟩
    · simp only [h0, h1, h2, h3, h4, if_false, Bool.false_eq_true]
      constructor
      · intro h; exact absurd h (by simp)
      · rintro ⟨i, hi, hr⟩
        interval_cases i <;> simp_all
  · intro k llm build hk hb hex hd happ
    obtain ⟨rem, rfl⟩ : ∃ rem, k = rem + 1 := ⟨k - 1, by omega⟩
    simp [main_run, hb, fix_loop, hex, hd, happ]

/-- Witness for the amended claim C3: a concrete run in which the exception
occurs at the `git apply` statement and the controller aborts after one
query. -/
theorem apply_patch_false_aborts_run_witness :
    main_run 1 (fun _ => ("--- a\n+++ b\n").toList)
      (fun _ => ((0 : Int), fun i => i == 2)) (fun _ => 1) = ⟨1, 1, 1⟩ :=
  (apply_patch_false_aborts_run (("--- a\n+++ b").toList) 0 (fun i => i == 2)).2 1
    (fun _ => ("--- a\n+++ b\n").toList) (fun _ => 1) (by decide)
    (show (1 : Int) ≠ 0 by decide)
    (show extract_unified_diff (("--- a\n+++ b\n").toList)
       = some (("--- a\n+++ b").toList) by decide)
    (by decide) (by decide)

/-- Claim C4: on every invocation of the patch applier, whenever the
diff-apply step is attempted at all, the pre-patch snapshot write
(`git diff --staged > .pre_ai_fix.patch`) occurs strictly before it in the
operation trace — for every diff text, every `git apply` exit code (success
or failure), and every exception behaviour of the later steps. -/
theorem snapshot_written_before_apply (d : List Char) (g : Int) (raises : Nat → Bool)
    (h : PatchOp.gitApply g ∈ (apply_patch d g raises).2) :
    ∃ l₁ l₂, (apply_patch d g raises).2 = l₁ ++ PatchOp.writeSnapshot :: l₂
      ∧ PatchOp.gitApply g ∈ l₂ := by
  by_cases h0 : raises 0 = true
  · exact absurd h (by simp [apply_patch, trySteps, h0])
  by_cases h1 : raises 1 = true
  · exact absurd h (by simp [apply_patch, trySteps, h0, h1])
  by_cases h2 : raises 2 = true
  · exact absurd h (by simp [apply_patch, trySteps, h0, h1, h2])
  by_cases h3 : raises 3 = true
  · exact ⟨[.writeTmp d, .gitAddPre], [.gitApply g, .unlinkTmp],
      by simp [apply_patch, trySteps, h0, h1, h2, h3], by simp⟩
  by_cases h4 : raises 4 = true
  · exact ⟨[.writeTmp d, .gitAddPre], [.gitApply g, .gitAddPost, .unlinkTmp],
      by simp [apply_patch, trySteps, h0, h1, h2, h3, h4], by simp⟩
  · exact ⟨[.writeTmp d, .gitAddPre], [.gitApply g, .gitAddPost, .gitCommit, .unlinkTmp],
      by simp [apply_patch, trySteps, h0, h1, h2, h3, h4], by simp⟩

/-- Witness for claim C4 at a concrete invocation (a failing `git apply`,
no exception). -/
theorem snapshot_written_before_apply_witness :
    ∃ l₁ l₂, (apply_patch (("--- a\n+++ b").toList) 1 (fun _ => false)).2
        = l₁ ++ PatchOp.writeSnapshot :: l₂ ∧ PatchOp.gitApply 1 ∈ l₂ :=
  snapshot_written_before_apply (("--- a\n+++ b").toList) 1 (fun _ => false) (by decide)

/-- A list is a prefix of itself followed by anything. -/
theorem listPrefixOf_append_self (n r : List Char) : listPrefixOf n (n ++ r) = true := by
  induction n with
  | nil => rfl
  | cons a as ih => simp [listPrefixOf, ih]

/-- A prefix occurrence is an occurrence. -/
theorem listContains_of_prefixOf (n h : List Char) (hp : listPrefixOf n h = true) :
    listContains n h = true := by
  cases h with
  | nil => simpa [listContains] using hp
  | cons c rest => simp [listContains, hp]

/-- Claim C6: if the primary backend fails with a provider-classified error
(HTTP status ≥ 400, e.g. 429) and the llama fallback is configured,
`call_llm` invokes the fallback exactly once with the same prompt text and
returns its output (or propagates its failure as `_call_llama` does). -/
theorem fallback_invoked_on_provider_error (oenv : OpenAIEnv) (lenv : LlamaEnv)
    (prompt : List Char) (hk : oenv.keyPresent = true) (hs : 400 ≤ oenv.status) :
    call_llm (("openai").toList) (("llama").toList) oenv lenv prompt
      = (_call_llama lenv, [.openai prompt, .llama prompt]) := by
  have hmsg : _call_openai oenv
      = .error (.runtimeError ((("openai_error:").toList) ++ oenv.errBody)) := by
    simp [_call_openai, hk, hs]
  have hct : listContains (("openai_error").toList)
      ((("openai_error:").toList) ++ oenv.errBody) = true := by
    apply listContains_of_prefixOf
    have hsplit : ("openai_error:").toList = ("openai_error").toList ++ [':'] := by decide
    rw [hsplit, List.append_assoc]
    exact listPrefixOf_append_self _ _
  simp only [call_llm, hmsg]
  simp
  simpa using hct

/-- Witness for claim C6: a 429 from the primary with a healthy local
fallback yields the fallback's text, after exactly one fallback call. -/
theorem fallback_invoked_on_provider_error_witness :
    call_llm (("openai").toList) (("llama").toList)
      ⟨true, 429, ("quota exceeded").toList, []⟩ ⟨0, ("fallback text").toList⟩
      (("fix my build").toList)
    = (_call_llama ⟨0, ("fallback text").toList⟩,
       [.openai (("fix my build").toList), .llama (("fix my build").toList)]) :=
  fallback_invoked_on_provider_error ⟨true, 429, ("quota exceeded").toList, []⟩
    ⟨0, ("fallback text").toList⟩ (("fix my build").toList) rfl (by decide)

/-- Claim C7: if the primary backend call fails with a non-provider error —
the `KeyError` from a missing `OPENAI_API_KEY` credential — `call_llm`
propagates that failure immediately and the fallback backend is never
invoked (the call trace contains only the primary call), even though the
llama fallback is configured. -/
theorem missing_credential_no_fallback (oenv : OpenAIEnv) (lenv : LlamaEnv)
    (prompt : List Char) (hk : oenv.keyPresent = false) :
    call_llm (("openai").toList) (("llama").toList) oenv lenv prompt
      = (.error .keyError, [.openai prompt]) := by
  have hmsg : _call_openai oenv = .error .keyError := by
    simp [_call_openai, hk]
  simp [call_llm, hmsg]

/-- Witness for claim C7 at a concrete environment with no credential. -/
theorem missing_credential_no_fallback_witness :
    call_llm (("openai").toList) (("llama").toList)
      ⟨false, 200, [], ("unused").toList⟩ ⟨0, ("fallback text").toList⟩
      (("fix my build").toList)
    = (.error .keyError, [.openai (("fix my build").toList)]) :=
  missing_credential_no_fallback ⟨false, 200, [], ("unused").toList⟩
    ⟨0, ("fallback text").toList⟩ (("fix my build").toList) rfl

/-- Claim C9 counterexample: when the version-control listing command is
unavailable, the shell's error message goes to stderr, which the Process
Runner merges into the captured stdout (`stderr=subprocess.STDOUT`); the
Prompt Context's file list is then that error text, not the empty list. -/
theorem repo_tree_keeps_error_text :
    get_repo_tree (("sh: 1: git: not found\n").toList) = ("sh: 1: git: not found").toList
    ∧ get_repo_tree (("sh: 1: git: not found\n").toList) ≠ [] := by
  constructor
  · decide
  · decide

/-- The first element surviving `dropWhile` fails the predicate. -/
theorem dropWhile_head_false (p : Char → Bool) : ∀ (l : List Char) c cs,
    List.dropWhile p l = c :: cs → p c = false := by
  intro l
  induction l with
  | nil => intro c cs h; cases h
  | cons b bs ih =>
    intro c cs h
    by_cases hb : p b = true
    · rw [List.dropWhile_cons, if_pos hb] at h
      exact ih c cs h
    · rw [List.dropWhile_cons, if_neg hb] at h
      injection h with h1 h2
      subst h1
      simpa using hb

/-- A nonempty `pyStrip` result starts with a non-whitespace character. -/
theorem pyStrip_head_not_space (lsOut : List Char) (c : Char) (cs : List Char)
    (h : pyStrip lsOut = c :: cs) : isPySpace c = false := by
  unfold pyStrip rtrimPy at h
  set d := List.dropWhile isPySpace lsOut with hd
  have h2 : List.dropWhile isPySpace d.reverse = (c :: cs).reverse := by
    have h3 := congrArg List.reverse h
    rwa [List.reverse_reverse] at h3
  have he : List.takeWhile isPySpace d.reverse ++ (c :: cs).reverse = d.reverse := by
    rw [← h2, List.takeWhile_append_dropWhile]
  have hdrev : (c :: cs) ++ (List.takeWhile isPySpace d.reverse).reverse = d := by
    have h4 := congrArg List.reverse he
    rwa [List.reverse_append, List.reverse_reverse, List.reverse_reverse] at h4
  exact dropWhile_head_false isPySpace lsOut c _ (hd.symm.trans hdrev.symm)

/-- A text whose head is not a newline splits into lines whose first line
carries that head. -/
theorem splitlinesNL_head_cons (c : Char) (cs : List Char) (hc : c ≠ '\n') :
    ∃ l ls, splitlinesNL (c :: cs) = (c :: l) :: ls := by
  rw [splitlinesNL, if_neg hc]
  cases h : splitlinesNL cs with
  | nil => exact ⟨[], [], rfl⟩
  | cons l ls => exact ⟨l, ls, rfl⟩

/-- When the stripped captured output is nonempty, the file list is
nonempty. -/
theorem get_repo_tree_ne_nil (lsOut : List Char) (c : Char) (cs : List Char)
    (h : pyStrip lsOut = c :: cs) : get_repo_tree lsOut ≠ [] := by
  have hc : c ≠ '\n' := by
    have hns := pyStrip_head_not_space lsOut c cs h
    intro hceq
    subst hceq
    simp [isPySpace] at hns
  unfold get_repo_tree
  rw [h]
  obtain ⟨l, ls, hsp⟩ := splitlinesNL_head_cons c cs hc
  rw [hsp, show (220 : Nat) = 219 + 1 from rfl, List.take_succ_cons]
  cases hls : ls.take 219 with
  | nil => simp [joinNL]
  | cons y ys => simp [joinNL]

/-- Claim C9 (amended): file-list retrieval never raises, and the collector
substitutes an empty file list exactly when the captured (merged) output of
the listing command is empty up to whitespace; any other captured output —
in particular an unavailable or erroring command's error message, merged
from stderr — yields a nonempty file list carrying that text. -/
theorem repo_tree_empty_iff_empty_output (lsOut : List Char) :
    get_repo_tree lsOut = [] ↔ pyStrip lsOut = [] := by
  constructor
  · intro h
    cases hps : pyStrip lsOut with
    | nil => rfl
    | cons c cs => exact absurd h (get_repo_tree_ne_nil lsOut c cs hps)
  · intro h
    unfold get_repo_tree
    rw [h]
    rfl

/-- `breakNL` splits exactly at the first newline. -/
theorem breakNL_eq_some (cs : List Char) : ∀ l r, breakNL cs = some (l, r) →
    cs = l ++ '\n' :: r ∧ '\n' ∉ l := by
  induction cs with
  | nil => intro l r h; simp [breakNL] at h
  | cons c cs' ih =>
    intro l r h
    by_cases hc : c = '\n'
    · rw [breakNL, if_pos hc] at h
      obtain ⟨rfl, rfl⟩ := Prod.mk.injEq .. ▸ Option.some.inj h
      subst hc; simp
    · rw [breakNL, if_neg hc] at h
      cases hb : breakNL cs' with
      | none => rw [hb] at h; simp at h
      | some p =>
        obtain ⟨l', r'⟩ := p
        rw [hb] at h
        simp only [Option.some.injEq, Prod.mk.injEq] at h
        obtain ⟨rfl, rfl⟩ : l = c :: l' ∧ r = r' := by
          constructor
          · exact h.1.symm
          · exact h.2.symm
        obtain ⟨hcs, hnl⟩ := ih l' r hb
        subst hcs
        refine ⟨rfl, ?_⟩
        intro hmem
        rcases List.mem_cons.1 hmem with hh | hh
        · exact hc hh.symm
        · exact hnl hh

/-- `breakNL` recovers a decomposition at a newline-free first segment. -/
theorem breakNL_append (l r : List Char) (hl : '\n' ∉ l) :
    breakNL (l ++ '\n' :: r) = some (l, r) := by
  induction l with
  | nil => simp [breakNL]
  | cons c l' ih =>
    have hc : c ≠ '\n' := fun h => hl (h ▸ List.mem_cons_self c l')
    have hl' : '\n' ∉ l' := fun h => hl (List.mem_cons_of_mem c h)
    show breakNL (c :: (l' ++ '\n' :: r)) = some (c :: l', r)
    rw [breakNL, if_neg hc, ih hl']

/-- `listPrefixOf` is the prefix relation. -/
theorem listPrefixOf_iff (n : List Char) : ∀ h, listPrefixOf n h = true ↔ ∃ r, h = n ++ r := by
  induction n with
  | nil => intro h; simp [listPrefixOf]
  | cons a as ih =>
    intro h
    cases h with
    | nil =>
      simp only [listPrefixOf, List.cons_append]
      constructor
      · intro hf; cases hf
      · rintro ⟨r, hr⟩; cases hr
    | cons b bs =>
      simp only [listPrefixOf, Bool.and_eq_true, beq_iff_eq, ih bs, List.cons_append,
        List.cons.injEq]
      constructor
      · rintro ⟨rfl, r, rfl⟩; exact ⟨r, rfl, rfl⟩
      · rintro ⟨r, rfl, rfl⟩; exact ⟨rfl, r, rfl⟩

/-- Full characterisation of `markTokenNL`: it succeeds with remainder `r`
exactly when the text is `mark`, a nonempty newline-free token, a newline,
then `r`. -/
theorem markTokenNL_eq_some (mark cs r : List Char) :
    markTokenNL mark cs = some r ↔
      ∃ t, t ≠ [] ∧ '\n' ∉ t ∧ cs = mark ++ (t ++ '\n' :: r) := by
  unfold markTokenNL
  by_cases hp : listPrefixOf mark cs = true
  · rw [if_pos hp]
    obtain ⟨s, rfl⟩ := (listPrefixOf_iff mark cs).1 hp
    rw [List.drop_left]
    cases hb : breakNL s with
    | none =>
      rw [Option.none_bind]
      constructor
      · intro h; cases h
      · rintro ⟨t, ht, hnt, heq⟩
        have hseq : s = t ++ '\n' :: r := List.append_cancel_left heq
        rw [hseq, breakNL_append t r hnt] at hb
        cases hb
    | some p =>
      obtain ⟨t0, r0⟩ := p
      obtain ⟨hs, hn0⟩ := breakNL_eq_some s t0 r0 hb
      simp only [Option.some_bind]
      by_cases ht0 : t0 = []
      · subst ht0
        rw [if_pos (by simp)]
        constructor
        · intro h; cases h
        · rintro ⟨t, ht, hnt, heq⟩
          have hseq : s = t ++ '\n' :: r := List.append_cancel_left heq
          rw [hseq, breakNL_append t r hnt] at hb
          simp only [Option.some.injEq, Prod.mk.injEq] at hb
          exact (ht hb.1).elim
      · rw [if_neg (by simpa using ht0)]
        constructor
        · intro h
          obtain rfl : r0 = r := Option.some.inj h
          exact ⟨t0, ht0, hn0, by rw [hs]⟩
        · rintro ⟨t, ht, hnt, heq⟩
          have hseq : s = t ++ '\n' :: r := List.append_cancel_left heq
          rw [hseq, breakNL_append t r hnt] at hb
          simp only [Option.some.injEq, Prod.mk.injEq] at hb
          rw [hb.2]
  · rw [if_neg hp]
    constructor
    · intro h; cases h
    · rintro ⟨t, _, _, rfl⟩
      exact absurd (listPrefixOf_append_self mark _) hp

/-- The executable regex test `headerAt` agrees with the declarative
`HeaderShape`. -/
theorem headerAt_iff (cs : List Char) : headerAt cs = true ↔ HeaderShape cs := by
  unfold headerAt HeaderShape
  cases hm : markTokenNL (("--- ").toList) cs with
  | none =>
    rw [Option.none_bind]
    simp only [Option.isSome_none, Bool.false_eq_true, false_iff]
    rintro ⟨t1, t2, rest, ht1, ht2, hn1, hn2, hcs⟩
    have : markTokenNL (("--- ").toList) cs
        = some (("+++ ").toList ++ (t2 ++ '\n' :: rest)) :=
      (markTokenNL_eq_some _ _ _).2 ⟨t1, ht1, hn1, hcs⟩
    rw [hm] at this
    cases this
  | some afterMinus =>
    rw [Option.some_bind]
    rw [Option.isSome_iff_exists]
    constructor
    · rintro ⟨r3, hr3⟩
      obtain ⟨t1, ht1, hn1, hcs⟩ := (markTokenNL_eq_some _ _ _).1 hm
      obtain ⟨t2, ht2, hn2, hafter⟩ := (markTokenNL_eq_some _ _ _).1 hr3
      exact ⟨t1, t2, r3, ht1, ht2, hn1, hn2, by rw [hcs, hafter]⟩
    · rintro ⟨t1, t2, rest, ht1, ht2, hn1, hn2, hcs⟩
      have hminus : markTokenNL (("--- ").toList) cs
          = some (("+++ ").toList ++ (t2 ++ '\n' :: rest)) :=
        (markTokenNL_eq_some _ _ _).2 ⟨t1, ht1, hn1, hcs⟩
      rw [hm] at hminus
      obtain rfl : afterMinus = ("+++ ").toList ++ (t2 ++ '\n' :: rest) :=
        Option.some.inj hminus
      exact ⟨rest, (markTokenNL_eq_some _ _ _).2 ⟨t2, ht2, hn2, rfl⟩⟩

/-- The regex cannot match the empty text. -/
theorem headerShape_nil : ¬ HeaderShape [] := by
  rintro ⟨t1, t2, rest, _, _, _, _, h⟩
  simp at h

/-- Shifting a line-start position across the head character. -/
theorem lineStartAt_succ (aS : Bool) (c : Char) (rest : List Char) (j : Nat) :
    LineStartAt aS (c :: rest) (j + 1) ↔ LineStartAt (c == '\n') rest j := by
  cases j with
  | zero => simp [LineStartAt]
  | succ k => simp [LineStartAt]

/-- A match at position 0 is a match at the very start. -/
theorem matchAt_zero (aS : Bool) (cs : List Char) :
    MatchAt aS cs 0 ↔ (aS = true ∧ HeaderShape cs) := by
  unfold MatchAt
  simp [LineStartAt]

/-- Shifting a regex match across the head character. -/
theorem matchAt_succ (aS : Bool) (c : Char) (rest : List Char) (j : Nat) :
    MatchAt aS (c :: rest) (j + 1) ↔ MatchAt (c == '\n') rest j := by
  unfold MatchAt
  rw [List.drop_succ_cons, lineStartAt_succ]

/-- When the scan reports no match, no position matches. -/
theorem findHeader_none (cs : List Char) : ∀ aS, findHeader aS cs = none →
    ∀ i, ¬ MatchAt aS cs i := by
  induction cs with
  | nil =>
    intro aS _ i hm
    exact headerShape_nil (by simpa using hm.2)
  | cons c rest ih =>
    intro aS hnone i hm
    by_cases hcond : (aS && headerAt (c :: rest)) = true
    · rw [findHeader, if_pos hcond] at hnone
      cases hnone
    · rw [findHeader, if_neg hcond] at hnone
      have hrec : findHeader (c == '\n') rest = none := by
        cases hf : findHeader (c == '\n') rest with
        | none => rfl
        | some k => rw [hf] at hnone; cases hnone
      cases i with
      | zero =>
        obtain ⟨haS, hshape⟩ := (matchAt_zero aS (c :: rest)).1 hm
        exact hcond (by simp [haS, (headerAt_iff _).2 hshape])
      | succ j =>
        exact ih (c == '\n') hrec j ((matchAt_succ aS c rest j).1 hm)

/-- When the scan reports a match at `i`, position `i` matches and no earlier
position does: the scan returns the first multiline-anchored match. -/
theorem findHeader_some (cs : List Char) : ∀ aS i, findHeader aS cs = some i →
    MatchAt aS cs i ∧ ∀ j, j < i → ¬ MatchAt aS cs j := by
  induction cs with
  | nil =>
    intro aS i h
    have hA : headerAt [] = false := by decide
    rw [findHeader, hA, Bool.and_false] at h
    cases h
  | cons c rest ih =>
    intro aS i h
    by_cases hcond : (aS && headerAt (c :: rest)) = true
    · rw [findHeader, if_pos hcond] at h
      obtain rfl : (0 : Nat) = i := Option.some.inj h
      rw [Bool.and_eq_true] at hcond
      obtain ⟨haS, hAt⟩ := hcond
      refine ⟨(matchAt_zero aS (c :: rest)).2 ⟨haS, (headerAt_iff _).1 hAt⟩, ?_⟩
      intro j hj
      exact absurd hj (Nat.not_lt_zero j)
    · rw [findHeader, if_neg hcond] at h
      obtain ⟨i', hi', rfl⟩ := Option.map_eq_some'.1 h
      obtain ⟨hm, hmin⟩ := ih (c == '\n') i' hi'
      refine ⟨(matchAt_succ aS c rest i').2 hm, ?_⟩
      intro j hj
      cases j with
      | zero =>
        intro hmz
        obtain ⟨haS, hshape⟩ := (matchAt_zero aS (c :: rest)).1 hmz
        exact hcond (by simp [haS, (headerAt_iff _).2 hshape])
      | succ k =>
        intro hmk
        exact hmin k (by omega) ((matchAt_succ aS c rest k).1 hmk)

/-- Claim C5 counterexample: in the text `"--- a\n+++ b"` a `--- <token>`
line is immediately followed by a `+++ <token>` line (the final line of the
input), yet the extractor returns absent — the source regex additionally
demands a newline after the `+++` line, so a header pair ending the input
unterminated is not found. -/
theorem extract_misses_final_line_pair :
    specHeaderPairInLines (splitlinesNL (("--- a\n+++ b").toList)) = true
    ∧ extract_unified_diff (("--- a\n+++ b").toList) = none := by
  constructor
  · decide
  · decide

/-- Claim C5 (amended): the extractor returns the substring starting at the
first position that begins a line and matches a newline-terminated
`--- <token>` line immediately followed by a newline-terminated
`+++ <token>` line, extending to the end of the input with leading and
trailing whitespace trimmed; it returns absent exactly when no position in
the text matches such a (newline-terminated) header pair. -/
theorem extract_returns_first_header_match (text : List Char) :
    (∀ d, extract_unified_diff text = some d →
      ∃ i, MatchAt true text i ∧ (∀ j, j < i → ¬ MatchAt true text j)
        ∧ d = pyStrip (text.drop i))
    ∧ (extract_unified_diff text = none ↔ ∀ i, ¬ MatchAt true text i) := by
  constructor
  · intro d hd
    unfold extract_unified_diff at hd
    obtain ⟨i, hi, rfl⟩ := Option.map_eq_some'.1 hd
    obtain ⟨hm, hmin⟩ := findHeader_some text true i hi
    exact ⟨i, hm, hmin, rfl⟩
  · constructor
    · intro hn
      unfold extract_unified_diff at hn
      exact findHeader_none text true (Option.map_eq_none'.1 hn)
    · intro hall
      cases hf : findHeader true text with
      | none => simp [extract_unified_diff, hf]
      | some i => exact absurd (findHeader_some text true i hf).1 (hall i)

/-- Witness for the amended claim C5: on a concrete text with prose before
the header, the extractor output is the trimmed suffix from the first
header-pair match. -/
theorem extract_returns_first_header_match_witness :
    ∃ i, MatchAt true (("hi\n--- a\n+++ b\nrest").toList) i
      ∧ (∀ j, j < i → ¬ MatchAt true (("hi\n--- a\n+++ b\nrest").toList) j)
      ∧ ("--- a\n+++ b\nrest").toList
          = pyStrip ((("hi\n--- a\n+++ b\nrest").toList).drop i) :=
  (extract_returns_first_header_match (("hi\n--- a\n+++ b\nrest").toList)).1
    (("--- a\n+++ b\nrest").toList) (by decide)

/-- Dropping while a predicate holds walks through an appended block only as
far as its first failing element. -/
theorem dropWhile_append_keep (p : Char → Bool) (x y : List Char) (a : Char)
    (ha : a ∈ x) (hpa : p a = false) :
    List.dropWhile p (x ++ y) = List.dropWhile p x ++ y := by
  induction x with
  | nil => cases ha
  | cons b bs ih =>
    by_cases hb : p b = true
    · rcases List.mem_cons.1 ha with rfl | ha'
      · rw [hpa] at hb; cases hb
      · simp only [List.cons_append, List.dropWhile_cons, hb, if_true]
        exact ih ha'
    · have hb' : p b = false := by simpa using hb
      simp [List.cons_append, List.dropWhile_cons, hb']

/-- Right-trimming an appended string whose right block holds a non-space
character leaves the left block intact. -/
theorem rtrimPy_append_keep (l₁ l₂ : List Char) (a : Char) (ha : a ∈ l₂)
    (hpa : isPySpace a = false) : rtrimPy (l₁ ++ l₂) = l₁ ++ rtrimPy l₂ := by
  unfold rtrimPy
  rw [List.reverse_append,
    dropWhile_append_keep isPySpace l₂.reverse l₁.reverse a (List.mem_reverse.2 ha) hpa,
    List.reverse_append, List.reverse_reverse]

/-- Stripping a text that begins with a regex header-pair match keeps the
`"--- "` prefix (the first characters are not whitespace, and non-space
characters follow further right). -/
theorem pyStrip_headerShape (cs : List Char) (h : HeaderShape cs) :
    pyStrip cs ≠ [] ∧ (pyStrip cs).take 4 = ("--- ").toList := by
  obtain ⟨t1, t2, rest, ht1, ht2, hn1, hn2, rfl⟩ := h
  have hplus : '+' ∈ t1 ++ '\n' :: (("+++ ").toList ++ (t2 ++ '\n' :: rest)) := by
    simp
  have h1 : pyStrip (("--- ").toList ++ (t1 ++ '\n' :: (("+++ ").toList ++ (t2 ++ '\n' :: rest))))
      = ("--- ").toList ++ rtrimPy (t1 ++ '\n' :: (("+++ ").toList ++ (t2 ++ '\n' :: rest))) := by
    unfold pyStrip
    rw [dropWhile_append_keep isPySpace (("--- ").toList) _ '-' (by decide) (by decide)]
    have hdw : List.dropWhile isPySpace (("--- ").toList) = ("--- ").toList := by decide
    rw [hdw]
    exact rtrimPy_append_keep _ _ '+' hplus (by decide)
  rw [h1]
  constructor
  · simp
  · have h4 : (("--- ").toList).length = 4 := by decide
    rw [← h4, List.take_left]

/-- Claim C10: the extractor's result is either absent or a nonempty string
whose first four characters are `"--- "`; consequently the controller's
falsy test `if not diff` on the result is equivalent to testing absence, and
a found diff is never discarded as empty. -/
theorem extract_never_some_empty (text : List Char) :
    (∀ s, extract_unified_diff text = some s → s ≠ [] ∧ s.take 4 = ("--- ").toList)
    ∧ ((extract_unified_diff text = none ∨ extract_unified_diff text = some []) ↔
        extract_unified_diff text = none) := by
  have hmain : ∀ s, extract_unified_diff text = some s →
      s ≠ [] ∧ s.take 4 = ("--- ").toList := by
    intro s hs
    unfold extract_unified_diff at hs
    obtain ⟨i, hi, rfl⟩ := Option.map_eq_some'.1 hs
    exact pyStrip_headerShape _ (findHeader_some text true i hi).1.2
  refine ⟨hmain, ?_, fun h => Or.inl h⟩
  rintro (h | h)
  · exact h
  · exact absurd rfl (hmain [] h).1

/-- Witness for claim C10 at a concrete extraction. -/
theorem extract_never_some_empty_witness :
    ("--- a\n+++ b").toList ≠ [] ∧ (("--- a\n+++ b").toList).take 4 = ("--- ").toList :=
  (extract_never_some_empty (("--- a\n+++ b\n").toList)).1 (("--- a\n+++ b").toList)
    (by decide)
